import Mathlib

/-!
Verification of the graph-to-SPARQL compiler and result decoder of
`questionanswering/wikidata_access.py`.

The Python module is embedded shallowly:

* Python strings are Lean `String`s; `str.replace`, `re.sub(r"\?r[drv]", ...)`,
  `str.join`, `str.split`, `str.strip`, `str.lower`, `str.startswith` and
  slicing are modelled by executable functions on `List Char` below, with
  Python's exact semantics (leftmost, non-overlapping scanning for `replace`
  and `split`; the replacement text is never rescanned).
* A semantic graph (a Python dict) becomes the `Edge`/`Graph` structures;
  optional dict keys become `Option` fields, and the presence-only keys
  `argmax`/`argmin` become `Bool` flags.  Following the data model of the
  specification, an edge's `type` ranges over the three relation shapes.
* Fallible dict/list accesses raise in Python; the embedding returns
  `Except String α`, the error string naming the Python exception.
* `str(i)` on a natural number is `Nat.repr`.

Brace characters inside string literals are written with the escapes
`\x7b` and `\x7d`.
-/

/-! ### Python string primitives -/

/-- Python `s.replace(pat, repl)` on char lists, with explicit fuel so that
the recursion is structural (each step consumes at least one character, so
fuel `l.length` is always enough): scan left to right, replace every
non-overlapping occurrence of `pat`, never rescanning the replacement.
(Only used with non-empty `pat`, as in the source.) -/
def replaceFuel (pat repl : List Char) : Nat → List Char → List Char
  | _, [] => []
  | 0, l => l
  | f + 1, c :: cs =>
    if pat.isPrefixOf (c :: cs) then
      repl ++ replaceFuel pat repl f (cs.drop (pat.length - 1))
    else
      c :: replaceFuel pat repl f cs

/-- Python `s.replace(pat, repl)` on char lists. -/
def replaceL (pat repl l : List Char) : List Char :=
  replaceFuel pat repl l.length l

/-- Python `s.replace(pat, repl)` on strings. -/
def replaceS (s pat repl : String) : String :=
  ⟨replaceL pat.data repl.data s.data⟩

/-- Python `re.sub(r"\?r[drv]", repl, s)` on char lists: replace every
occurrence of `?rd`, `?rr` or `?rv`, scanning left to right.  (The regex
module's escape processing of the replacement text is not modelled; the
source only substitutes relation identifiers there.) -/
def reSubRdrvL (repl : List Char) : List Char → List Char
  | [] => []
  | '?' :: 'r' :: d :: rest =>
    if d = 'd' ∨ d = 'r' ∨ d = 'v' then
      repl ++ reSubRdrvL repl rest
    else
      '?' :: reSubRdrvL repl ('r' :: d :: rest)
  | c :: cs => c :: reSubRdrvL repl cs

/-- Python `re.sub(r"\?r[drv]", repl, s)` on strings. -/
def reSubRdrvS (s repl : String) : String :=
  ⟨reSubRdrvL repl.data s.data⟩

/-- Python `sep.join(parts)`. -/
def joinSep (sep : String) : List String → String
  | [] => ""
  | [x] => x
  | x :: xs => x ++ sep ++ joinSep sep xs

/-- Python `s.split(sep)` with a non-empty separator, on char lists, with
explicit fuel so that the recursion is structural. -/
def splitFuel (sep : List Char) : Nat → List Char → List (List Char)
  | _, [] => [[]]
  | 0, l => [l]
  | f + 1, c :: cs =>
    if sep.isPrefixOf (c :: cs) then
      [] :: splitFuel sep f (cs.drop (sep.length - 1))
    else
      match splitFuel sep f cs with
      | [] => [[c]]
      | g :: gs => (c :: g) :: gs

/-- Python `s.split(sep)` with a non-empty separator, on char lists. -/
def splitL (sep l : List Char) : List (List Char) :=
  splitFuel sep l.length l

/-- Python `s.split(sep)` on strings. -/
def pySplitS (s sep : String) : List String :=
  (splitL sep.data s.data).map List.asString

/-- Python `s.strip()`: drop leading and trailing whitespace. -/
def pyStrip (s : String) : String :=
  ⟨(((s.data.dropWhile Char.isWhitespace).reverse.dropWhile Char.isWhitespace).reverse)⟩

/-- Python `s.lower()` (ASCII behaviour). -/
def pyLower (s : String) : String :=
  ⟨s.data.map Char.toLower⟩

/-- Python `s[:-1]`: all but the last character. -/
def pyDropLast (s : String) : String :=
  ⟨s.data.dropLast⟩

/-- Python `s.startswith(pre)`. -/
def pyStartswith (s pre : String) : Bool :=
  pre.data.isPrefixOf s.data

/-! ### The template registry (module-level constants of the source) -/

/-- `sparql_prefix` of the source: the namespace-prefix header. -/
def sparql_prefixes : String :=
  "\n        PREFIX e:<http://www.wikidata.org/entity/>\n        PREFIX rdfs:<http://www.w3.org/2000/01/rdf-schema#>\n        PREFIX skos:<http://www.w3.org/2004/02/skos/core#>\n        PREFIX base:<http://www.wikidata.org/ontology#>\n        "

def sparql_select : String :=
  "\n        SELECT DISTINCT %queryvariables% WHERE\n        "

/-- Keys of the `sparql_relation` dict, in insertion (= iteration) order. -/
inductive RelType where
  | direct
  | reverse
  | vstructure
deriving DecidableEq, Repr

/-- The dict key naming the shape (`edge['type']`). -/
def RelType.key : RelType → String
  | .direct => "direct"
  | .reverse => "reverse"
  | .vstructure => "v-structure"

/-- `edge['type'][0]`: the first character of the key, as a string. -/
def RelType.letter : RelType → String
  | .direct => "d"
  | .reverse => "r"
  | .vstructure => "v"

/-- `sparql_relation[k]`: the directional relation fragments. -/
def sparql_relation : RelType → String
  | .direct =>
    "\x7bGRAPH <http://wikidata.org/statements> \x7b ?e1 ?p ?m . ?m ?rd ?e2 . %restriction% \x7d\x7d"
  | .reverse =>
    "\x7bGRAPH <http://wikidata.org/statements> \x7b ?e2 ?p ?m . ?m ?rr ?e1 . %restriction% \x7d\x7d"
  | .vstructure =>
    "\x7bGRAPH <http://wikidata.org/statements> \x7b ?m ?p ?e2 . ?m ?rv ?e1 . %restriction% \x7d\x7d"

def sparql_relation_complex : String :=
  "\n        \x7b\n        \x7bGRAPH <http://wikidata.org/statements> \x7b ?e1 ?p ?m . ?m ?rd ?e2 . \x7d\x7d\n        UNION\n        \x7bGRAPH <http://wikidata.org/statements> \x7b ?e2 ?p ?m . ?m ?rr ?e1 . \x7d\x7d\n        UNION\n        \x7bGRAPH <http://wikidata.org/statements> \x7b ?m ?p ?e2. ?m ?rv ?e1. \x7d\x7d\x7d\n        "

def sparql_entity_label : String :=
  "\n        \x7b VALUES ?labelpredicate \x7brdfs:label skos:altLabel\x7d\n        GRAPH <http://wikidata.org/terms> \x7b ?e2 ?labelpredicate \"%labelright%\"@en  \x7d\n        \x7d FILTER NOT EXISTS \x7bGRAPH <http://wikidata.org/instances> \x7b?e2 rdf:type e:Q4167410\x7d\x7d\n        "

def sparql_relation_time_argmax : String := "?m ?a [base:time ?n]."

/-- `sparql_close_order.format(terms)`. -/
def sparql_close_order (terms : String) : String :=
  " ORDER BY " ++ terms ++ " LIMIT 1"

def GLOBAL_RESULT_LIMIT : Nat := 1000

/-- `sparql_close = " LIMIT {}".format(GLOBAL_RESULT_LIMIT)`. -/
def sparql_close : String := " LIMIT " ++ Nat.repr GLOBAL_RESULT_LIMIT

def HOP_UP_RELATIONS : List String := ["P131", "P31", "P279", "P17", "P361"]

def sparql_entity_abstract : String := "[ ?hopups [ ?hopupv ?e2]]"

def sparql_hopup_values : String :=
  "VALUES (?hopups ?hopupv) \x7b"
    ++ joinSep " " (HOP_UP_RELATIONS.map (fun r => "(e:" ++ r ++ "s e:" ++ r ++ "v)"))
    ++ "\x7d"

/-! ### The data model -/

/-- One edge of a semantic graph (one relation hypothesis).  Optional dict
keys become `Option` fields; `argmax`/`argmin` are present-or-absent keys
whose value is never read, hence `Bool` flags.  `hopUp = some ""` models a
present but empty (falsy) `hopUp` value. -/
structure Edge where
  type : Option RelType
  kbID : Option String
  hopUp : Option String
  argmax : Bool
  argmin : Bool
  rightkbID : Option String
  right : Option (List String)
deriving DecidableEq, Repr

/-- A semantic graph.  Only `edgeSet` is read by the compiler; the `tokens`
and `entities` keys of the Python dict are never accessed by the functions
verified here. -/
structure Graph where
  edgeSet : List Edge
deriving DecidableEq, Repr

/-- An edge with all fields absent, for building small graphs. -/
def Edge.empty : Edge :=
  ⟨none, none, none, false, false, none, none⟩

/-! ### The edge compiler and query assembler (`graph_to_query`) -/

/-- The relation free variables registered for an edge with no `kbID`
(source line 112): `["?r{}{}".format(i, t[0]) for t in sparql_relation]`
when `type` is absent, else `["?r{}{}".format(i, edge['type'][0])]`. -/
def relFreeVars (t : Option RelType) (i : Nat) : List String :=
  match t with
  | none => ["?r" ++ Nat.repr i ++ "d", "?r" ++ Nat.repr i ++ "r", "?r" ++ Nat.repr i ++ "v"]
  | some t => ["?r" ++ Nat.repr i ++ t.letter]

/-- The body of the `for i, edge in enumerate(g['edgeSet'])` loop of
`graph_to_query` (source lines 102-147).  Returns the text appended to the
query for this edge (label fragment, if any, followed by the relation
fragment), the variables appended to `variables`, and the terms appended to
`order_by`.  The only failure is the `edge['right']` access when both
`rightkbID` and `right` are absent. -/
def compileEdge (e : Edge) (i : Nat) : Except String (String × List String × List String) :=
  -- lines 103-106: template selection
  let inst := match e.type with
    | some t => sparql_relation t
    | none => sparql_relation_complex
  -- lines 108-112: relation identity
  let instVars : String × List String := match e.kbID with
    | some k => (reSubRdrvS inst ("e:" ++ k), [])
    | none => (replaceS inst "?r" ("?r" ++ Nat.repr i), relFreeVars e.type i)
  let inst := instVars.1
  let vars := instVars.2
  -- lines 114-121: abstraction hop
  let instVars : String × List String := match e.hopUp with
    | none => (inst, vars)
    | some h =>
      let inst := replaceS inst "?e2" sparql_entity_abstract
      if h ≠ "" then
        (replaceS (replaceS inst "?hopupv" ("e:" ++ h)) "?hopups" ("e:" ++ pyDropLast h ++ "s"),
         vars)
      else
        (sparql_hopup_values ++ inst, vars ++ ["?hopup" ++ Nat.repr i ++ "v"])
  let inst := instVars.1
  let vars := instVars.2
  -- lines 123-129: extremal ordering
  let instOrder : String × List String :=
    if e.argmax || e.argmin then
      let inst := replaceS inst "%restriction%" sparql_relation_time_argmax
      let inst := replaceS inst "?n" ("?n" ++ Nat.repr i)
      let inst := replaceS inst "?a" ("?a" ++ Nat.repr i)
      (inst, [(if e.argmax then "DESC" else "ASC") ++ "(" ++ "?n" ++ Nat.repr i ++ ")"])
    else
      (replaceS inst "%restriction%" "", [])
  let inst := instOrder.1
  let order_by := instOrder.2
  -- lines 131-133: index-suffix the intermediate placeholders
  let inst := replaceS inst "?p" ("?p" ++ Nat.repr i)
  let inst := replaceS inst "?m" ("?m" ++ Nat.repr i)
  let inst := replaceS inst "?hopup" ("?hopup" ++ Nat.repr i)
  -- lines 135-147: right-hand entity resolution, blank-node suffixing
  match e.rightkbID with
  | some rk =>
    let inst := replaceS inst "?e2" ("e:" ++ rk)
    let inst := replaceS inst "_:m" ("_:m" ++ Nat.repr i)
    let inst := replaceS inst "_:s" ("_:s" ++ Nat.repr i)
    Except.ok (inst, vars, order_by)
  | none =>
    match e.right with
    | none => Except.error "KeyError: right"
    | some toks =>
      let inst := replaceS inst "?e2" ("?e2" ++ Nat.repr i)
      let right_label := joinSep " " toks
      let lbl := replaceS sparql_entity_label "?e2" ("?e2" ++ Nat.repr i)
      let lbl := replaceS lbl "%labelright%" right_label
      let vars := vars ++ ["?e2" ++ Nat.repr i]
      let inst := replaceS inst "_:m" ("_:m" ++ Nat.repr i)
      let inst := replaceS inst "_:s" ("_:s" ++ Nat.repr i)
      Except.ok (lbl ++ inst, vars, order_by)

/-- The whole loop of `graph_to_query`, starting at edge index `i`:
concatenated per-edge text, the `variables` list and the `order_by` list. -/
def compileEdges : List Edge → Nat → Except String (String × List String × List String)
  | [], _ => Except.ok ("", [], [])
  | e :: es, i => do
    let (frag, vars, ob) ← compileEdge e i
    let (body, vars', ob') ← compileEdges es (i + 1)
    Except.ok (frag ++ body, vars ++ vars', ob ++ ob')

/-- `graph_to_query(g, return_var_values)` (source lines 81-160), returning
both the assembled query text and the `variables` list whose join replaced
the `%queryvariables%` slot. -/
def graphToQueryData (g : Graph) (return_var_values : Bool) :
    Except String (String × List String) := do
  let (body, vars, order_by) ← compileEdges g.edgeSet 0
  let vars := if return_var_values then vars ++ ["?e1"] else vars
  let query := sparql_prefixes ++ sparql_select ++ "\x7b" ++ body ++ "\x7d"
  let query := replaceS query "%queryvariables%" (joinSep " " vars)
  let query :=
    if order_by.isEmpty then query ++ sparql_close
    else query ++ sparql_close_order (joinSep " " order_by)
  Except.ok (query, vars)

/-- `graph_to_query(g, return_var_values)`: just the query text. -/
def graph_to_query (g : Graph) (return_var_values : Bool) : Except String String :=
  (graphToQueryData g return_var_values).map Prod.fst

/-- The loop of `get_free_variables` (source lines 165-169), starting at
edge index `i`. -/
def freeVarsAux (include_relations include_entities : Bool) :
    List Edge → Nat → List String
  | [], _ => []
  | e :: es, i =>
    ((if include_relations && e.kbID.isNone then relFreeVars e.type i else []) ++
     (if include_entities && e.rightkbID.isNone then ["?e2" ++ Nat.repr i] else [])) ++
      freeVarsAux include_relations include_entities es (i + 1)

/-- `get_free_variables(g, include_relations, include_entities,
include_question_variable)` (source lines 163-172). -/
def get_free_variables (g : Graph) (include_relations include_entities
    include_question_variable : Bool) : List String :=
  freeVarsAux include_relations include_entities g.edgeSet 0 ++
    (if include_question_variable then ["?e1"] else [])

/-! ### The result decoder (`query_wikidata`) -/

/-- A Python/JSON value as returned by `sparql.query().convert()`. -/
inductive PyVal where
  | str : String → PyVal
  | arr : List PyVal → PyVal
  | dict : List (String × PyVal) → PyVal

/-- Python `v[k]` on a dict: `KeyError` when the key is absent, `TypeError`
when `v` is not a dict. -/
def dictGet (v : PyVal) (k : String) : Except String PyVal :=
  match v with
  | .dict kvs =>
    match kvs.lookup k with
    | some x => Except.ok x
    | none => Except.error ("KeyError: " ++ k)
  | _ => Except.error "TypeError: not a dict"

/-- `r[b]['value']` for one result cell, which additionally must be a string
for `.startswith` to succeed (source line 206). -/
def cellValue (c : PyVal) : Except String String := do
  match ← dictGet c "value" with
  | .str s => Except.ok s
  | _ => Except.error "AttributeError: startswith"

def wikidataEntityNamespace : String := "http://www.wikidata.org/entity/"

/-- `all(r[b]['value'].startswith("http://www.wikidata.org/entity/") for b in r)`
with Python's short-circuiting `all` (source line 206). -/
def rowKeep : List (String × PyVal) → Except String Bool
  | [] => Except.ok true
  | (_, c) :: rest => do
    let v ← cellValue c
    if pyStartswith v wikidataEntityNamespace then rowKeep rest else Except.ok false

/-- The filtering comprehension of source line 206: keep the binding rows all
of whose cell values carry the entity namespace.  Rows must be dicts. -/
def filterRows : List PyVal → Except String (List (List (String × PyVal)))
  | [] => Except.ok []
  | r :: rest =>
    match r with
    | .dict kvs => do
      let keep ← rowKeep kvs
      let rest' ← filterRows rest
      if keep then Except.ok (kvs :: rest') else Except.ok rest'
    | _ => Except.error "TypeError: row is not a dict"

/-- The stripping comprehension of source line 207 for one surviving row:
`{b: r[b]['value'].replace("http://www.wikidata.org/entity/", "") for b in r}`. -/
def stripRow : List (String × PyVal) → Except String (List (String × String))
  | [] => Except.ok []
  | bc :: rest => do
    let v ← cellValue bc.2
    let r ← stripRow rest
    Except.ok ((bc.1, replaceS v wikidataEntityNamespace "") :: r)

/-- The outer comprehension of source line 207 over the surviving rows. -/
def stripRows : List (List (String × PyVal)) → Except String (List (List (String × String)))
  | [] => Except.ok []
  | r :: rest => do
    let s ← stripRow r
    let ss ← stripRows rest
    Except.ok (s :: ss)

/-- `query_wikidata(query)` (source lines 196-211), as a function of the
transport outcome: `Except.error` on the left models `sparql.query().convert()`
raising (caught by the `try`, yielding `[]`), `Except.ok v` models a converted
response object `v` of arbitrary shape.  The result is `Except.ok rows` when
the Python call returns `rows`, and `Except.error` when it raises. -/
def query_wikidata (outcome : Except String PyVal) :
    Except String (List (List (String × String))) :=
  match outcome with
  | .error _ => Except.ok []
  | .ok results => do
    let res ← dictGet results "results"
    let bindings ← dictGet res "bindings"
    match bindings with
    | .arr rows =>
      -- `len(results["results"]["bindings"]) > 0`, phrased as `≠ 0`
      if rows.length = 0 then
        Except.ok []
      else do
        let kept ← filterRows rows
        let stripped ← stripRows kept
        Except.ok stripped
    | _ => Except.error "TypeError: len() of unsized object"

/-- A well-shaped response object holding the given binding rows, each cell
a `{"type": ..., "value": v}`-style dict reduced to its `value` field. -/
def mkResponse (rows : List (List (String × String))) : PyVal :=
  .dict [("results", .dict [("bindings",
    .arr (rows.map (fun r => .dict (r.map (fun bv => (bv.1, .dict [("value", .str bv.2)]))))))])]

/-! ### The answer canonicalizer (`load_entity_map`, `map_query_results`) -/

/-- `load_entity_map(path)` (source lines 214-221) on the list of lines of a
readable file: each line is stripped and split on tabs, and the resulting
rows `t` are collected into `nltk.Index({(t[1], t[0]) ...})`, i.e. a multimap
keyed by the SECOND column whose values are FIRST columns.  A row with fewer
than two columns raises `IndexError` inside the comprehension, which the
`except` turns into the empty map.  (The `set` dedups pairs and iterates in
unspecified order; the embedding keeps the pairs in file order, which agrees
with the code up to multiplicity and order of the per-key lists.) -/
def load_entity_map (lines : List String) : List (String × String) :=
  let rows := lines.map (fun l => pySplitS (pyStrip l) "\t")
  if rows.all (fun t => 2 ≤ t.length) then
    rows.map (fun t => (t.getD 1 "", t.getD 0 ""))
  else
    []

/-- `index[k]` for the `nltk.Index` built from `pairs`: all values paired
with key `k`, in order. -/
def indexFind (pairs : List (String × String)) (k : String) : List String :=
  (pairs.filter (fun p => p.1 == k)).map Prod.snd

/-- `entity_map.get(a, [a])` (source line 237): the aliases of `a`, or `[a]`
when `a` is not a key of the index. -/
def indexGetD (pairs : List (String × String)) (a : String) : List String :=
  match indexFind pairs a with
  | [] => [a]
  | l => l

/-- `map_query_results(query_results, question_variable)` (source lines
226-238), with the module-global `entity_map` made an explicit argument.
`r[question_variable]` raises `KeyError` when a row lacks the variable. -/
def map_query_results (entity_map : List (String × String))
    (query_results : List (List (String × String))) (question_variable : String) :
    Except String (List String) := do
  let answers ← query_results.mapM (fun r =>
    match r.lookup question_variable with
    | some v => Except.ok v
    | none => Except.error ("KeyError: " ++ question_variable))
  Except.ok (answers.flatMap (fun a => (indexGetD entity_map a).map pyLower))

/-! ### Decimal representation: `str(i)` is injective -/

/-- Digit characters have the expected code points. -/
lemma digitChar_toNat (m : Nat) (h : m < 10) : (Nat.digitChar m).toNat = 48 + m := by
  interval_cases m <;> rfl

/-- Read a digit string back into a number, starting from `a`. -/
def valFrom (a : Nat) (l : List Char) : Nat :=
  l.foldl (fun x c => 10 * x + (c.toNat - 48)) a

lemma valFrom_cons (a : Nat) (c : Char) (l : List Char) :
    valFrom a (c :: l) = valFrom (10 * a + (c.toNat - 48)) l := rfl

lemma valFrom_toDigitsCore : ∀ (f n : Nat) (acc : List Char), n < 10 ^ f →
    valFrom 0 (Nat.toDigitsCore 10 f n acc) = valFrom n acc := by
  intro f
  induction f with
  | zero =>
    intro n acc h
    have hn : n = 0 := by simpa using Nat.lt_one_iff.mp (by simpa using h)
    subst hn; rfl
  | succ f ih =>
    intro n acc h
    simp only [Nat.toDigitsCore]
    by_cases h10 : n / 10 = 0
    · simp only [h10, if_true]
      have hn10 : n < 10 := by omega
      rw [valFrom_cons, digitChar_toNat _ (Nat.mod_lt _ (by norm_num))]
      have he : 10 * 0 + (48 + n % 10 - 48) = n := by omega
      rw [he]
    · simp only [h10, if_false]
      have hlt : n / 10 < 10 ^ f := by
        have hm : n < 10 ^ f * 10 := by
          have := pow_succ 10 f
          omega
        exact (Nat.div_lt_iff_lt_mul (by norm_num)).mpr hm
      rw [ih (n / 10) (Nat.digitChar (n % 10) :: acc) hlt, valFrom_cons,
        digitChar_toNat _ (Nat.mod_lt _ (by norm_num))]
      have he : 10 * (n / 10) + (48 + n % 10 - 48) = n := by omega
      rw [he]

lemma nat_repr_val (n : Nat) : valFrom 0 (Nat.repr n).data = n := by
  have hd : (Nat.repr n).data = Nat.toDigitsCore 10 (n + 1) n [] := rfl
  have h : n < 10 ^ (n + 1) :=
    lt_of_lt_of_le (Nat.lt_pow_self (by norm_num) n)
      (Nat.pow_le_pow_right (by norm_num) (Nat.le_succ n))
  rw [hd, valFrom_toDigitsCore _ _ _ h]
  rfl

lemma nat_repr_injective : Function.Injective Nat.repr := by
  intro m n h
  have := congrArg (fun s => valFrom 0 (String.data s)) h
  simpa [nat_repr_val] using this

/-! ### Placeholder names `"?" ++ tag ++ str(i) ++ suffix` -/

/-- Two placeholder names with the same tag and same-length suffixes agree
only when their edge indices agree. -/
lemma placeholder_index_inj (t u v : String) (hu : u.length = v.length) (i j : Nat)
    (h : "?" ++ t ++ Nat.repr i ++ u = "?" ++ t ++ Nat.repr j ++ v) : i = j := by
  have hd := congrArg String.data h
  simp only [String.data_append, List.append_assoc] at hd
  have h1 := List.append_cancel_left hd
  have h2 := List.append_cancel_left h1
  have hu' : u.data.length = v.data.length := hu
  have hlen : (Nat.repr i).data.length = (Nat.repr j).data.length := by
    have := congrArg List.length h2
    simp only [List.length_append] at this
    omega
  exact nat_repr_injective (String.ext (List.append_inj h2 hlen).1)

/-- Two placeholder names whose tags start with different characters are
different strings. -/
lemma placeholder_tag_ne (t₁ t₂ u v : String) (i j : Nat) (c₁ c₂ : Char)
    (h₁ : t₁.data.head? = some c₁) (h₂ : t₂.data.head? = some c₂) (hc : c₁ ≠ c₂) :
    "?" ++ t₁ ++ Nat.repr i ++ u ≠ "?" ++ t₂ ++ Nat.repr j ++ v := by
  intro h
  have hd := congrArg String.data h
  simp only [String.data_append, List.append_assoc] at hd
  have h1 := List.append_cancel_left hd
  apply hc
  have hne₁ : t₁.data ≠ [] := by intro hn; rw [hn] at h₁; simp at h₁
  have hne₂ : t₂.data ≠ [] := by intro hn; rw [hn] at h₂; simp at h₂
  have e₁ : (t₁.data ++ ((Nat.repr i).data ++ u.data)).head? = some c₁ := by
    rw [List.head?_append_of_ne_nil _ hne₁]; exact h₁
  have e₂ : (t₂.data ++ ((Nat.repr j).data ++ v.data)).head? = some c₂ := by
    rw [List.head?_append_of_ne_nil _ hne₂]; exact h₂
  rw [h1, e₂] at e₁
  exact (Option.some.injEq _ _ ▸ e₁).symm

/-! ### C5: determinism of the compiler -/

/-- C5: `graph_to_query` is deterministic: two invocations on equal inputs
return identical query text.  (In this pure embedding the compiler also
cannot mutate its input graph: it is a function of `g` and the flag only.) -/
theorem graph_to_query_deterministic (g g' : Graph) (b b' : Bool)
    (hg : g = g') (hb : b = b') : graph_to_query g b = graph_to_query g' b' := by
  rw [hg, hb]

/-- Witness for C5 at a concrete one-edge graph. -/
theorem graph_to_query_deterministic_witness :
    graph_to_query ⟨[{ Edge.empty with kbID := some "P35v", rightkbID := some "Q155" }]⟩ true =
      graph_to_query ⟨[{ Edge.empty with kbID := some "P35v", rightkbID := some "Q155" }]⟩ true :=
  graph_to_query_deterministic _ _ _ _ rfl rfl

/-! ### C7: answer canonicalization -/

lemma indexGetD_eq_if (em : List (String × String)) (a : String) :
    indexGetD em a = if indexFind em a = [] then [a] else indexFind em a := by
  unfold indexGetD
  cases h : indexFind em a <;> simp [h]

lemma mapM_lookup_ok (qv : String) : ∀ (rows : List (List (String × String))),
    (∀ r ∈ rows, (r.lookup qv).isSome) →
    (rows.mapM (fun r => match r.lookup qv with
      | some v => Except.ok v
      | none => Except.error ("KeyError: " ++ qv)) : Except String (List String)) =
      Except.ok (rows.map (fun r => (r.lookup qv).getD "")) := by
  intro rows
  induction rows with
  | nil => intro _; rfl
  | cons r rs ih =>
    intro h
    obtain ⟨v, hv⟩ := Option.isSome_iff_exists.mp (h r (by simp))
    rw [List.mapM_cons, ih (fun x hx => h x (by simp [hx]))]
    simp only [hv, List.map_cons, Option.getD_some]
    rfl

/-- C7: `map_query_results` replaces each extracted identifier by its
lower-cased aliases when the alias table has any, and by the lower-cased
identifier itself otherwise, concatenating the per-identifier lists; on the
reference rows and alias table it returns `["barack obama", "q235234"]`. -/
theorem map_query_results_canonicalizes (em : List (String × String))
    (rows : List (List (String × String))) (qv : String)
    (hbind : ∀ r ∈ rows, (r.lookup qv).isSome) :
    map_query_results em rows qv =
      Except.ok ((rows.map (fun r => (r.lookup qv).getD "")).flatMap
        (fun a => (if indexFind em a = [] then [a] else indexFind em a).map pyLower)) ∧
    map_query_results [("Q76", "Barack Obama")]
        [[("e1", "Q76")], [("e1", "Q235234")]] "e1" =
      Except.ok ["barack obama", "q235234"] := by
  constructor
  · unfold map_query_results
    rw [mapM_lookup_ok qv rows hbind]
    simp only [indexGetD_eq_if]
    rfl
  · rfl

/-- Witness for C7: the universal part applied at the reference fixture. -/
theorem map_query_results_canonicalizes_witness :
    map_query_results [("Q76", "Barack Obama")]
        [[("e1", "Q76")], [("e1", "Q235234")]] "e1" =
      Except.ok ["barack obama", "q235234"] :=
  (map_query_results_canonicalizes [("Q76", "Barack Obama")]
    [[("e1", "Q76")], [("e1", "Q235234")]] "e1" (by decide)).2

/-! ### C9: the alias file loader keys the map by the SECOND column -/

/-- C9 counterexample: on the single claimed `(identifier, alias)` row
`"Q76\tObama"`, looking up the first column `Q76` does NOT yield a list
containing the second column `Obama` (the loader swaps the columns). -/
theorem load_entity_map_counterexample :
    ¬ "Obama" ∈ indexFind (load_entity_map ["Q76\tObama"]) "Q76" := by
  decide

/-- C9 (amended): the loader builds a multimap keyed by each row's SECOND
column; for every two-column row, looking up the row's second column yields
a list containing the row's first column. -/
theorem load_entity_map_keyed_by_second_column (lines : List String)
    (hcols : ∀ l ∈ lines, (pySplitS (pyStrip l) "\t").length = 2) :
    ∀ l ∈ lines,
      (pySplitS (pyStrip l) "\t").getD 0 "" ∈
        indexFind (load_entity_map lines) ((pySplitS (pyStrip l) "\t").getD 1 "") := by
  intro l hl
  unfold load_entity_map
  have hall : ((lines.map (fun l => pySplitS (pyStrip l) "\t")).all
      (fun t => 2 ≤ t.length)) = true := by
    rw [List.all_eq_true]
    intro t ht
    obtain ⟨x, hx, rfl⟩ := List.mem_map.mp ht
    have := hcols x hx
    simp [this]
  simp only [hall, if_true]
  unfold indexFind
  apply List.mem_map.mpr
  refine ⟨((pySplitS (pyStrip l) "\t").getD 1 "", (pySplitS (pyStrip l) "\t").getD 0 ""),
    ?_, rfl⟩
  apply List.mem_filter.mpr
  constructor
  · apply List.mem_map.mpr
    refine ⟨pySplitS (pyStrip l) "\t", ?_, rfl⟩
    exact List.mem_map.mpr ⟨l, hl, rfl⟩
  · simp

/-- Witness for C9's amended theorem at a concrete one-row file. -/
theorem load_entity_map_keyed_by_second_column_witness :
    (pySplitS (pyStrip "Barack Obama\tQ76") "\t").getD 0 "" ∈
      indexFind (load_entity_map ["Barack Obama\tQ76"])
        ((pySplitS (pyStrip "Barack Obama\tQ76") "\t").getD 1 "") :=
  load_entity_map_keyed_by_second_column ["Barack Obama\tQ76"] (by decide)
    "Barack Obama\tQ76" (by decide)

/-! ### C3 and C6: the result decoder -/

lemma okBind {ε α β : Type} (a : α) (f : α → Except ε β) :
    (Except.ok a >>= f) = f a := rfl

/-- The decoding of a well-shaped binding-row list (source lines 206-207):
keep the rows all of whose cell values carry the entity namespace, and
remove the namespace from every cell of the survivors. -/
def decodeRows (rows : List (List (String × String))) : List (List (String × String)) :=
  (rows.filter (fun r => r.all (fun bv => pyStartswith bv.2 wikidataEntityNamespace))).map
    (List.map (fun bv => (bv.1, replaceS bv.2 wikidataEntityNamespace "")))

/-- Build the cell dicts of a well-shaped row. -/
def mkCells (r : List (String × String)) : List (String × PyVal) :=
  r.map (fun bv => (bv.1, PyVal.dict [("value", PyVal.str bv.2)]))

lemma rowKeep_mkCells (r : List (String × String)) :
    rowKeep (mkCells r) =
      Except.ok (r.all (fun bv => pyStartswith bv.2 wikidataEntityNamespace)) := by
  induction r with
  | nil => rfl
  | cons bv rest ih =>
    simp only [mkCells, List.map_cons, rowKeep, cellValue, dictGet, List.lookup,
      beq_self_eq_true, if_true, List.all_cons, okBind]
    cases h : pyStartswith bv.2 wikidataEntityNamespace
    · simp [h]
    · simp only [h, if_true, Bool.true_and]
      simpa using ih

lemma filterRows_mkCells (rows : List (List (String × String))) :
    filterRows (rows.map (fun r => PyVal.dict (mkCells r))) =
      Except.ok ((rows.filter
        (fun r => r.all (fun bv => pyStartswith bv.2 wikidataEntityNamespace))).map mkCells) := by
  induction rows with
  | nil => rfl
  | cons r rest ih =>
    simp only [List.map_cons, filterRows, rowKeep_mkCells, ih, List.filter_cons, okBind]
    cases h : r.all (fun bv => pyStartswith bv.2 wikidataEntityNamespace)
    · simp [h]
    · simp [h]

lemma stripRow_mkCells (r : List (String × String)) :
    stripRow (mkCells r) =
      Except.ok (r.map (fun bv => (bv.1, replaceS bv.2 wikidataEntityNamespace ""))) := by
  induction r with
  | nil => rfl
  | cons bv rest ih =>
    have hc : cellValue (PyVal.dict [("value", PyVal.str bv.2)]) = Except.ok bv.2 := rfl
    simp only [mkCells, List.map_cons, stripRow, hc, okBind] at ih ⊢
    rw [ih]
    rfl

lemma stripRows_mkCells (rs : List (List (String × String))) :
    stripRows (rs.map mkCells) =
      Except.ok (rs.map (List.map (fun bv => (bv.1, replaceS bv.2 wikidataEntityNamespace "")))) := by
  induction rs with
  | nil => rfl
  | cons r rest ih =>
    simp only [List.map_cons, stripRows, stripRow_mkCells, ih, okBind]

/-- Decoding a well-shaped response: the Python call returns (never raises)
exactly the filtered, namespace-stripped rows. -/
lemma query_wikidata_mkResponse (rows : List (List (String × String))) :
    query_wikidata (Except.ok (mkResponse rows)) = Except.ok (decodeRows rows) := by
  cases rows with
  | nil => rfl
  | cons r rest =>
    have h1 : query_wikidata (Except.ok (mkResponse (r :: rest))) = (do
        let kept ← filterRows (((r :: rest).map (fun r => PyVal.dict (mkCells r))))
        let stripped ← stripRows kept
        (Except.ok stripped : Except String (List (List (String × String))))) := rfl
    rw [h1, filterRows_mkCells, okBind, stripRows_mkCells]
    rfl

/-- C3 counterexample: a transport success whose converted response object
is malformed (here the empty dict, lacking the `results` key) makes
`query_wikidata` raise a `KeyError` at `results["results"]` — outside the
`try` block — instead of returning a list. -/
theorem query_wikidata_raises_on_malformed_response :
    ¬ ∃ l, query_wikidata (Except.ok (PyVal.dict [])) = Except.ok l := by
  intro h
  obtain ⟨l, hl⟩ := h
  have he : query_wikidata (Except.ok (PyVal.dict [])) =
      Except.error "KeyError: results" := rfl
  rw [he] at hl
  exact Except.noConfusion hl

/-- C3 (amended): every exception raised by the transport call itself is
swallowed and surfaced as the empty list, and every well-shaped response is
decoded to a list without raising; but a transport success carrying a
malformed response object raises instead of returning a list. -/
theorem query_wikidata_swallows_transport_failures :
    (∀ msg, query_wikidata (Except.error msg) = Except.ok []) ∧
    (∀ rows, query_wikidata (Except.ok (mkResponse rows)) = Except.ok (decodeRows rows)) :=
  ⟨fun _ => rfl, query_wikidata_mkResponse⟩

/-- C6 counterexample: stripping uses Python `str.replace`, which removes
EVERY occurrence of the namespace, not only the leading one: on a value
with a doubled namespace the surviving cell is `"Q76"`, not the
leading-prefix-stripped `"http://www.wikidata.org/entity/Q76"`. -/
theorem query_wikidata_strip_counterexample :
    query_wikidata (Except.ok (mkResponse
      [[("e1", "http://www.wikidata.org/entity/http://www.wikidata.org/entity/Q76")]])) =
      Except.ok [[("e1", "Q76")]] ∧
    ("Q76" : String) ≠ "http://www.wikidata.org/entity/Q76" := by
  constructor
  · rfl
  · decide

/-- C6 (amended): on a non-empty well-shaped result set, `query_wikidata`
keeps exactly the rows all of whose cell values start with the entity
namespace, and replaces every occurrence of the namespace in each surviving
cell by the empty string (for values carrying the namespace only as the
leading prefix this leaves the bare identifier). -/
theorem query_wikidata_filters_and_strips (rows : List (List (String × String)))
    (_hne : rows ≠ []) :
    query_wikidata (Except.ok (mkResponse rows)) =
      Except.ok ((rows.filter
          (fun r => r.all (fun bv => pyStartswith bv.2 wikidataEntityNamespace))).map
        (List.map (fun bv => (bv.1, replaceS bv.2 wikidataEntityNamespace "")))) :=
  query_wikidata_mkResponse rows

/-- Witness for C6's amended theorem: one entity row survives and is
stripped, one literal row is dropped. -/
theorem query_wikidata_filters_and_strips_witness :
    query_wikidata (Except.ok (mkResponse
      [[("e1", "http://www.wikidata.org/entity/Q76")], [("e1", "Missouri")]])) =
      Except.ok [[("e1", "Q76")]] := by
  have h := query_wikidata_filters_and_strips
    [[("e1", "http://www.wikidata.org/entity/Q76")], [("e1", "Missouri")]] (by decide)
  rw [h]
  rfl

/-! ### Decomposition of the edge compiler: variables and order-by terms -/

/-- The variables the loop body appends for one edge (lines 112, 121, 142):
relation placeholders when `kbID` is absent, the hop value placeholder when
`hopUp` is present and empty, the entity placeholder when `rightkbID` is
absent, in that order. -/
def edgeVars (e : Edge) (i : Nat) : List String :=
  (if e.kbID.isNone then relFreeVars e.type i else []) ++
    ((if e.hopUp == some "" then ["?hopup" ++ Nat.repr i ++ "v"] else []) ++
      (if e.rightkbID.isNone then ["?e2" ++ Nat.repr i] else []))

/-- The order-by terms the loop body appends for one edge (line 127). -/
def edgeOrder (e : Edge) (i : Nat) : List String :=
  if e.argmax || e.argmin then
    [(if e.argmax then "DESC" else "ASC") ++ "(" ++ "?n" ++ Nat.repr i ++ ")"]
  else []

lemma compileEdge_parts (e : Edge) (i : Nat) (frag : String) (vars ob : List String)
    (h : compileEdge e i = Except.ok (frag, vars, ob)) :
    vars = edgeVars e i ∧ ob = edgeOrder e i := by
  rcases e with ⟨t, k, hp, amax, amin, rk, r⟩
  cases k <;> cases hp <;> cases rk <;> cases r <;> cases amax <;> cases amin <;>
    simp_all [compileEdge, edgeVars, edgeOrder] <;>
    split_ifs at h <;> simp_all

/-- All variables the loop appends from edge index `i` on. -/
def varsAux : List Edge → Nat → List String
  | [], _ => []
  | e :: es, i => edgeVars e i ++ varsAux es (i + 1)

/-- All order-by terms the loop appends from edge index `i` on. -/
def orderAux : List Edge → Nat → List String
  | [], _ => []
  | e :: es, i => edgeOrder e i ++ orderAux es (i + 1)

lemma compileEdges_parts : ∀ (es : List Edge) (i : Nat) (body : String)
    (vars ob : List String), compileEdges es i = Except.ok (body, vars, ob) →
    vars = varsAux es i ∧ ob = orderAux es i := by
  intro es
  induction es with
  | nil =>
    intro i body vars ob h
    simp only [compileEdges, Except.ok.injEq, Prod.mk.injEq] at h
    simp [varsAux, orderAux, h.2.1.symm, h.2.2.symm]
  | cons e es ih =>
    intro i body vars ob h
    simp only [compileEdges] at h
    cases he : compileEdge e i with
    | error m => rw [he] at h; exact Except.noConfusion h
    | ok t =>
      obtain ⟨frag, vars₁, ob₁⟩ := t
      rw [he, okBind] at h
      cases hes : compileEdges es (i + 1) with
      | error m => rw [hes] at h; exact Except.noConfusion h
      | ok u =>
        obtain ⟨body₂, vars₂, ob₂⟩ := u
        rw [hes, okBind] at h
        simp only [Except.ok.injEq, Prod.mk.injEq] at h
        obtain ⟨-, h2, h3⟩ := h
        obtain ⟨hv, ho⟩ := compileEdge_parts e i frag vars₁ ob₁ he
        obtain ⟨hv', ho'⟩ := ih (i + 1) body₂ vars₂ ob₂ hes
        subst hv ho hv' ho'
        simp [varsAux, orderAux, h2.symm, h3.symm]

/-! ### C2: projection consistency of `get_free_variables` -/

lemma freeVarsAux_eq_varsAux : ∀ (es : List Edge) (i : Nat),
    (∀ e ∈ es, e.hopUp ≠ some "") →
    freeVarsAux true true es i = varsAux es i := by
  intro es
  induction es with
  | nil => intro i _; rfl
  | cons e es ih =>
    intro i h
    have he : (e.hopUp == some "") = false := by
      have := h e (by simp)
      simpa using this
    simp [freeVarsAux, varsAux, edgeVars, he]
    exact ih (i + 1) (fun x hx => h x (by simp [hx]))

/-- An edge with a bound relation and entity but a present-and-empty
`hopUp` (the Python dict `{'kbID': 'P1v', 'rightkbID': 'Q1', 'hopUp': ''}`). -/
def emptyHopEdge : Edge :=
  { Edge.empty with kbID := some "P1v", rightkbID := some "Q1", hopUp := some "" }

/-- C2 counterexample: an edge with a bound relation and entity but a
present-and-empty `hopUp` projects the hop value placeholder `?hopup0v`,
which `get_free_variables` (with matching flags) never reports. -/
theorem get_free_variables_counterexample :
    (graphToQueryData ⟨[emptyHopEdge]⟩ false).map Prod.snd =
      Except.ok ["?hopup0v"] ∧
    get_free_variables ⟨[emptyHopEdge]⟩ true true false = [] ∧
    (["?hopup0v"] : List String) ≠ [] := by
  refine ⟨rfl, rfl, by decide⟩

/-- C2 (amended): on graphs in which no edge carries a present-but-empty
`hopUp`, `get_free_variables` with matching flags returns exactly the
projection list `graph_to_query` embeds into the `SELECT` clause. -/
theorem get_free_variables_matches_projection (g : Graph) (b : Bool)
    (q : String) (vars : List String)
    (hhop : ∀ e ∈ g.edgeSet, e.hopUp ≠ some "")
    (h : graphToQueryData g b = Except.ok (q, vars)) :
    get_free_variables g true true b = vars := by
  unfold graphToQueryData at h
  cases hce : compileEdges g.edgeSet 0 with
  | error m => rw [hce] at h; exact Except.noConfusion h
  | ok t =>
    obtain ⟨body, vars₀, ob⟩ := t
    rw [hce, okBind] at h
    simp only [Except.ok.injEq, Prod.mk.injEq] at h
    have hv := (compileEdges_parts g.edgeSet 0 body vars₀ ob hce).1
    unfold get_free_variables
    rw [freeVarsAux_eq_varsAux g.edgeSet 0 hhop, ← hv, ← h.2]
    cases b <;> simp

/-- Witness for C2's amended theorem at a one-edge label-derived graph. -/
theorem get_free_variables_matches_projection_witness :
    get_free_variables ⟨[{ Edge.empty with right := some ["Missouri"] }]⟩ true true false =
      ["?r0d", "?r0r", "?r0v", "?e20"] := by
  have h := get_free_variables_matches_projection
    ⟨[{ Edge.empty with right := some ["Missouri"] }]⟩ false _ _
    (by intro e he; simp at he; subst he; simp [Edge.empty]) rfl
  rw [h]
  rfl

/-! ### C4: the extremal / global-cap trailing clause -/

lemma orderAux_enumFrom : ∀ (es : List Edge) (i : Nat),
    orderAux es i = (List.enumFrom i es).filterMap (fun p =>
      if p.2.argmax then some ("DESC(?n" ++ Nat.repr p.1 ++ ")")
      else if p.2.argmin then some ("ASC(?n" ++ Nat.repr p.1 ++ ")") else none) := by
  intro es
  induction es with
  | nil => intro i; rfl
  | cons e es ih =>
    intro i
    simp only [orderAux, List.enumFrom, List.filterMap_cons, ih (i + 1)]
    cases hmax : e.argmax <;> cases hmin : e.argmin <;>
      simp [edgeOrder, hmax, hmin]

lemma orderAux_eq_nil_iff : ∀ (es : List Edge) (i : Nat),
    orderAux es i = [] ↔ ∀ e ∈ es, e.argmax = false ∧ e.argmin = false := by
  intro es
  induction es with
  | nil => intro i; simp [orderAux]
  | cons e es ih =>
    intro i
    have hsingle : edgeOrder e i = [] ↔ (e.argmax = false ∧ e.argmin = false) := by
      cases hm : e.argmax <;> cases hn : e.argmin <;> simp [edgeOrder, hm, hn]
    simp only [orderAux, List.append_eq_nil, ih (i + 1), hsingle, List.mem_cons]
    constructor
    · rintro ⟨h1, h2⟩ x hx
      rcases hx with rfl | hx
      · exact h1
      · exact h2 x hx
    · intro h
      exact ⟨h e (Or.inl rfl), fun x hx => h x (Or.inr hx)⟩

/-- C4: if some edge carries `argmax`/`argmin` the assembled query ends in
an `ORDER BY <terms> LIMIT 1` clause whose term for the edge at index `i`
is `DESC(?n<i>)` when the edge carries `argmax`, and `ASC(?n<i>)` when it
carries `argmin` (and not `argmax`); with no such edge, the query ends in
the fixed global cap ` LIMIT 1000`. -/
theorem graph_to_query_extremal_clause (g : Graph) (b : Bool) (q : String)
    (vars : List String) (h : graphToQueryData g b = Except.ok (q, vars)) :
    ((∃ e ∈ g.edgeSet, e.argmax ∨ e.argmin) →
      ∃ body, q = body ++ " ORDER BY " ++ joinSep " "
          ((List.enumFrom 0 g.edgeSet).filterMap (fun p =>
            if p.2.argmax then some ("DESC(?n" ++ Nat.repr p.1 ++ ")")
            else if p.2.argmin then some ("ASC(?n" ++ Nat.repr p.1 ++ ")") else none)) ++
        " LIMIT 1") ∧
    ((∀ e ∈ g.edgeSet, e.argmax = false ∧ e.argmin = false) →
      ∃ body, q = body ++ " LIMIT 1000") := by
  unfold graphToQueryData at h
  cases hce : compileEdges g.edgeSet 0 with
  | error m => rw [hce] at h; exact Except.noConfusion h
  | ok t =>
    obtain ⟨body₀, vars₀, ob⟩ := t
    rw [hce, okBind] at h
    simp only [Except.ok.injEq, Prod.mk.injEq] at h
    have hob := (compileEdges_parts g.edgeSet 0 body₀ vars₀ ob hce).2
    constructor
    · intro hex
      have hne : ob ≠ [] := by
        rw [hob, Ne, orderAux_eq_nil_iff]
        intro hall
        obtain ⟨e, he, hflag⟩ := hex
        have := hall e he
        rcases hflag with hf | hf <;> simp [this.1, this.2] at hf
      have hemp : ob.isEmpty = false := by
        cases hoe : ob.isEmpty
        · rfl
        · exact absurd (List.isEmpty_iff.mp hoe) hne
      rw [hemp] at h
      simp only [Bool.false_eq_true, if_false] at h
      refine ⟨replaceS (sparql_prefixes ++ sparql_select ++ "\x7b" ++ body₀ ++ "\x7d")
        "%queryvariables%" (joinSep " " (if b then vars₀ ++ ["?e1"] else vars₀)), ?_⟩
      rw [← h.1, hob, orderAux_enumFrom]
      simp [sparql_close_order, String.append_assoc]
    · intro hall
      have hnil : ob = [] := by rw [hob, orderAux_eq_nil_iff]; exact hall
      subst hnil
      simp only [List.isEmpty_nil, if_true] at h
      exact ⟨replaceS (sparql_prefixes ++ sparql_select ++ "\x7b" ++ body₀ ++ "\x7d")
        "%queryvariables%" (joinSep " " (if b then vars₀ ++ ["?e1"] else vars₀)),
        by rw [← h.1]; rfl⟩

/-- A one-edge graph carrying `argmax` (first doctest fixture of the
source). -/
def argmaxEdge : Edge :=
  { Edge.empty with type := some .reverse, kbID := some "P35v", rightkbID := some "Q155", argmax := true }

/-- Witness for C4 at the doctest's argmax graph. -/
theorem graph_to_query_extremal_clause_witness :
    ∃ q vars, graphToQueryData ⟨[argmaxEdge]⟩ true = Except.ok (q, vars) ∧
      ∃ body, q = body ++ " ORDER BY " ++ joinSep " "
          ((List.enumFrom 0 (⟨[argmaxEdge]⟩ : Graph).edgeSet).filterMap (fun p =>
            if p.2.argmax then some ("DESC(?n" ++ Nat.repr p.1 ++ ")")
            else if p.2.argmin then some ("ASC(?n" ++ Nat.repr p.1 ++ ")") else none)) ++
        " LIMIT 1" := by
  have h := graph_to_query_extremal_clause ⟨[argmaxEdge]⟩ true _ _ rfl
  exact ⟨_, _, rfl, h.1 ⟨argmaxEdge, by simp, Or.inl rfl⟩⟩

/-! ### C8: shape coverage of the per-edge fragment -/

/-- The substitution chain of source lines 108-145 applied to a starting
relation template `tpl`: relation identity, abstraction hop, extremal
restriction, index suffixing, right-hand entity resolution and blank-node
suffixing, in source order. -/
def instantiateRelation (e : Edge) (i : Nat) (tpl : String) : String :=
  let inst := match e.kbID with
    | some k => reSubRdrvS tpl ("e:" ++ k)
    | none => replaceS tpl "?r" ("?r" ++ Nat.repr i)
  let inst := match e.hopUp with
    | none => inst
    | some h =>
      let inst := replaceS inst "?e2" sparql_entity_abstract
      if h ≠ "" then
        replaceS (replaceS inst "?hopupv" ("e:" ++ h)) "?hopups" ("e:" ++ pyDropLast h ++ "s")
      else
        sparql_hopup_values ++ inst
  let inst :=
    if e.argmax || e.argmin then
      replaceS (replaceS (replaceS inst "%restriction%" sparql_relation_time_argmax)
        "?n" ("?n" ++ Nat.repr i)) "?a" ("?a" ++ Nat.repr i)
    else
      replaceS inst "%restriction%" ""
  let inst := replaceS inst "?p" ("?p" ++ Nat.repr i)
  let inst := replaceS inst "?m" ("?m" ++ Nat.repr i)
  let inst := replaceS inst "?hopup" ("?hopup" ++ Nat.repr i)
  let inst := match e.rightkbID with
    | some rk => replaceS inst "?e2" ("e:" ++ rk)
    | none => replaceS inst "?e2" ("?e2" ++ Nat.repr i)
  replaceS (replaceS inst "_:m" ("_:m" ++ Nat.repr i)) "_:s" ("_:s" ++ Nat.repr i)

/-- The entity-label lookup fragment emitted ahead of the relation fragment
when the edge has no `rightkbID` (source lines 139-143); empty otherwise. -/
def edgeLabelFragment (e : Edge) (i : Nat) : String :=
  match e.rightkbID with
  | some _ => ""
  | none =>
    replaceS (replaceS sparql_entity_label "?e2" ("?e2" ++ Nat.repr i))
      "%labelright%" (joinSep " " (e.right.getD []))

lemma empty_append_str (s : String) : "" ++ s = s :=
  String.ext (by rw [String.data_append]; rfl)

/-- The per-edge fragment factors as the label fragment followed by the
substitution chain applied to the template selected by `type`. -/
lemma compileEdge_frag (e : Edge) (i : Nat) (frag : String) (vars ob : List String)
    (h : compileEdge e i = Except.ok (frag, vars, ob)) :
    frag = edgeLabelFragment e i ++
      instantiateRelation e i (match e.type with
        | some t => sparql_relation t
        | none => sparql_relation_complex) := by
  rcases e with ⟨t, k, hp, amax, amin, rk, r⟩
  cases k <;> cases hp <;> cases rk <;> cases r <;> cases amax <;> cases amin <;>
    simp_all [compileEdge, instantiateRelation, edgeLabelFragment, empty_append_str] <;>
    split_ifs at h ⊢ <;> simp_all [empty_append_str]

/-- C8: when `type` is present the edge's fragment is exactly the label
fragment (if any) followed by the substitution chain applied to the single
directional template selected by the type; when `type` is absent it is the
chain applied to the union-of-three template; never both, never a mixture. -/
theorem compileEdge_shape (e : Edge) (i : Nat) (frag : String) (vars ob : List String)
    (h : compileEdge e i = Except.ok (frag, vars, ob)) :
    (∀ t, e.type = some t →
      frag = edgeLabelFragment e i ++ instantiateRelation e i (sparql_relation t)) ∧
    (e.type = none →
      frag = edgeLabelFragment e i ++ instantiateRelation e i sparql_relation_complex) := by
  have hf := compileEdge_frag e i frag vars ob h
  constructor
  · intro t ht
    rw [hf, ht]
  · intro ht
    rw [hf, ht]

/-- A typed, fully bound edge (shape `reverse`). -/
def reverseEdge : Edge :=
  { Edge.empty with type := some .reverse, kbID := some "P35v", rightkbID := some "Q155" }

/-- Witness for C8 at a typed edge: the fragment is the instantiated
`reverse` template. -/
theorem compileEdge_shape_witness :
    ∃ frag vars ob, compileEdge reverseEdge 0 = Except.ok (frag, vars, ob) ∧
      frag = edgeLabelFragment reverseEdge 0 ++
        instantiateRelation reverseEdge 0 (sparql_relation .reverse) := by
  have h := compileEdge_shape reverseEdge 0 _ _ _ rfl
  exact ⟨_, _, _, rfl, h.1 .reverse rfl⟩

/-! ### C1: cross-edge uniqueness of placeholder names -/

/-- The index-suffixed placeholder names the compiler generates for the
edge at index `i` (source lines 111-112, 121, 125-127, 131-133, 138-142):
relation placeholders `?r<i>d/r/v` (absent when `kbID` binds the relation),
the predicate and intermediate-node placeholders `?p<i>`, `?m<i>`, the
extremal placeholders `?n<i>`, `?a<i>`, the hop placeholders
`?hopup<i>s/v` (only when `hopUp` is present and empty), and the entity
placeholder `?e2<i>` (absent when `rightkbID` binds the entity).  This is
a superset of the names occurring in the final text, since a substitution
into a template without the placeholder is a no-op. -/
def edgePlaceholders (e : Edge) (i : Nat) : List String :=
  (if e.kbID.isNone then relFreeVars e.type i else []) ++
    (["?p" ++ Nat.repr i, "?m" ++ Nat.repr i] ++
      ((if e.argmax || e.argmin then ["?n" ++ Nat.repr i, "?a" ++ Nat.repr i] else []) ++
        ((if e.hopUp == some "" then
            ["?hopup" ++ Nat.repr i ++ "s", "?hopup" ++ Nat.repr i ++ "v"] else []) ++
          (if e.rightkbID.isNone then ["?e2" ++ Nat.repr i] else []))))

/-- The tag/suffix decompositions a placeholder name can have. -/
def placeholderTags : List (String × String) :=
  [("r", "d"), ("r", "r"), ("r", "v"), ("p", ""), ("m", ""), ("n", ""), ("a", ""),
   ("hopup", "s"), ("hopup", "v"), ("e2", "")]

lemma mem_ite_nil {α : Type} {c : Prop} [Decidable c] {l : List α} {v : α}
    (h : v ∈ if c then l else []) : v ∈ l := by
  by_cases hc : c
  · simpa [hc] using h
  · simp [hc] at h

lemma edgePlaceholders_shape (e : Edge) (i : Nat) (v : String)
    (hv : v ∈ edgePlaceholders e i) :
    ∃ p ∈ placeholderTags, v = "?" ++ p.1 ++ Nat.repr i ++ p.2 := by
  unfold edgePlaceholders at hv
  simp only [List.mem_append] at hv
  rcases hv with h | h | h | h | h
  · have h' := mem_ite_nil h
    unfold relFreeVars at h'
    cases ht : e.type with
    | none =>
      rw [ht] at h'
      simp only [List.mem_cons, List.not_mem_nil, or_false] at h'
      rcases h' with rfl | rfl | rfl
      · exact ⟨("r", "d"), by decide, rfl⟩
      · exact ⟨("r", "r"), by decide, rfl⟩
      · exact ⟨("r", "v"), by decide, rfl⟩
    | some t =>
      rw [ht] at h'
      simp only [List.mem_singleton] at h'
      subst h'
      cases t
      · exact ⟨("r", "d"), by decide, rfl⟩
      · exact ⟨("r", "r"), by decide, rfl⟩
      · exact ⟨("r", "v"), by decide, rfl⟩
  · simp only [List.mem_cons, List.not_mem_nil, or_false] at h
    rcases h with rfl | rfl
    · exact ⟨("p", ""), by decide, by rw [String.append_empty]; rfl⟩
    · exact ⟨("m", ""), by decide, by rw [String.append_empty]; rfl⟩
  · have h' := mem_ite_nil h
    simp only [List.mem_cons, List.not_mem_nil, or_false] at h'
    rcases h' with rfl | rfl
    · exact ⟨("n", ""), by decide, by rw [String.append_empty]; rfl⟩
    · exact ⟨("a", ""), by decide, by rw [String.append_empty]; rfl⟩
  · have h' := mem_ite_nil h
    simp only [List.mem_cons, List.not_mem_nil, or_false] at h'
    rcases h' with rfl | rfl
    · exact ⟨("hopup", "s"), by decide, rfl⟩
    · exact ⟨("hopup", "v"), by decide, rfl⟩
  · have h' := mem_ite_nil h
    simp only [List.mem_singleton] at h'
    subst h'
    exact ⟨("e2", ""), by decide, by rw [String.append_empty]; rfl⟩

/-- C1: placeholder names are unique across edges: a placeholder name
generated for the edge at index `i` is never generated for a distinct edge
index `j`, whatever the two edges are — every name carries its edge's
index, and the tag/suffix classes cannot collide. -/
theorem placeholder_names_unique (e e' : Edge) (i j : Nat) (hij : i ≠ j)
    (v : String) (hv : v ∈ edgePlaceholders e i) : v ∉ edgePlaceholders e' j := by
  intro hv'
  obtain ⟨p, hp, rfl⟩ := edgePlaceholders_shape e i v hv
  obtain ⟨q, hq, heq⟩ := edgePlaceholders_shape e' j _ hv'
  fin_cases hp <;> fin_cases hq <;>
    first
      | exact hij (placeholder_index_inj _ _ _ (by decide) i j heq)
      | exact placeholder_tag_ne _ _ _ _ i j _ _ (by rfl) (by rfl) (by decide) heq

/-- Witness for C1 at two concrete edges and indices 0 and 1. -/
theorem placeholder_names_unique_witness :
    ¬ "?p0" ∈ edgePlaceholders Edge.empty 1 :=
  placeholder_names_unique Edge.empty Edge.empty 0 1 (by decide) "?p0" (by decide)

/-! ### C10: empty projection for fully bound graphs -/

lemma replaceFuel_congr (pat repl : List Char) :
    ∀ (f₁ f₂ : Nat) (l : List Char), l.length ≤ f₁ → l.length ≤ f₂ →
    replaceFuel pat repl f₁ l = replaceFuel pat repl f₂ l := by
  intro f₁
  induction f₁ with
  | zero =>
    intro f₂ l h1 _
    have hl : l = [] := List.length_eq_zero.mp (Nat.le_zero.mp h1)
    subst hl
    cases f₂ <;> rfl
  | succ f ih =>
    intro f₂ l h1 h2
    cases l with
    | nil => cases f₂ <;> rfl
    | cons c cs =>
      cases f₂ with
      | zero => simp at h2
      | succ f₂' =>
        simp only [List.length_cons] at h1 h2
        simp only [replaceFuel]
        by_cases hpre : pat.isPrefixOf (c :: cs)
        · rw [if_pos hpre, if_pos hpre]
          congr 1
          apply ih
          · simp only [List.length_drop]; omega
          · simp only [List.length_drop]; omega
        · rw [if_neg hpre, if_neg hpre]
          congr 1
          apply ih <;> omega

lemma replaceL_cons (pat repl : List Char) (c : Char) (cs : List Char) :
    replaceL pat repl (c :: cs) =
      if pat.isPrefixOf (c :: cs) then
        repl ++ replaceL pat repl (cs.drop (pat.length - 1))
      else
        c :: replaceL pat repl cs := by
  unfold replaceL
  simp only [List.length_cons, replaceFuel]
  by_cases hpre : pat.isPrefixOf (c :: cs)
  · rw [if_pos hpre, if_pos hpre]
    congr 1
    apply replaceFuel_congr
    · simp only [List.length_drop]; omega
    · exact Nat.le_refl _
  · rw [if_neg hpre, if_neg hpre]

lemma prefix_trans_take {l₁ l₂ t : List Char} (h : l₁ <+: l₂ ++ t)
    (hl : l₂.length ≤ l₁.length) : l₂ <+: l₁ := by
  obtain ⟨u, hu⟩ := h
  have h2 : l₂ = l₁.take l₂.length := by
    have htk := congrArg (List.take l₂.length) hu
    rw [List.take_append_of_le_length hl, List.take_left] at htk
    exact htk.symm
  rw [h2]
  exact List.take_prefix _ _

/-- If no non-empty suffix of `xs` shorter than `pat` is a prefix of `pat`
(so no occurrence of `pat` straddles the boundary), Python `replace`
distributes over the concatenation `xs ++ ys`. -/
lemma replaceL_append (pat repl : List Char) :
    ∀ (n : Nat) (xs ys : List Char), xs.length ≤ n →
    (∀ t, t <:+ xs → t ≠ [] → t.length < pat.length → ¬ t <+: pat) →
    replaceL pat repl (xs ++ ys) = replaceL pat repl xs ++ replaceL pat repl ys := by
  intro n
  induction n with
  | zero =>
    intro xs ys h1 _
    have hx : xs = [] := List.length_eq_zero.mp (Nat.le_zero.mp h1)
    subst hx
    rfl
  | succ n ih =>
    intro xs ys h1 hbc
    cases xs with
    | nil => rfl
    | cons c cs =>
      simp only [List.length_cons] at h1
      rw [List.cons_append, replaceL_cons, replaceL_cons]
      by_cases hpre : pat.isPrefixOf (c :: (cs ++ ys))
      · have hxl : pat.length ≤ (c :: cs).length := by
          by_contra hlt
          push_neg at hlt
          have hp1 : pat <+: (c :: cs) ++ ys := by
            rw [← List.isPrefixOf_iff_prefix]
            simpa using hpre
          have hp2 : (c :: cs) <+: pat :=
            prefix_trans_take hp1 (Nat.le_of_lt hlt)
          exact hbc (c :: cs) (List.suffix_refl _) (by simp) hlt hp2
        have hpre2 : pat.isPrefixOf (c :: cs) := by
          rw [List.isPrefixOf_iff_prefix]
          have hp1 : pat <+: (c :: cs) ++ ys := by
            rw [← List.isPrefixOf_iff_prefix]
            simpa using hpre
          obtain ⟨u, hu⟩ := hp1
          refine ⟨(c :: cs).drop pat.length, ?_⟩
          have htk := congrArg (List.take pat.length) hu.symm
          rw [List.take_append_of_le_length hxl, List.take_left] at htk
          have had := List.take_append_drop pat.length (c :: cs)
          rw [htk] at had
          exact had
        rw [if_pos (by simpa using hpre), if_pos hpre2, List.append_assoc]
        congr 1
        have hdrop : (cs ++ ys).drop (pat.length - 1) =
            cs.drop (pat.length - 1) ++ ys := by
          apply List.drop_append_of_le_length
          simp only [List.length_cons] at hxl
          omega
        rw [hdrop]
        apply ih
        · simp only [List.length_drop]; omega
        · intro t ht
          exact hbc t (ht.trans ((List.drop_suffix _ _).trans (List.suffix_cons c cs)))
      · have hpre2 : ¬ pat.isPrefixOf (c :: cs) := by
          intro hx
          apply hpre
          rw [List.isPrefixOf_iff_prefix] at hx ⊢
          exact hx.trans (List.prefix_append _ ys)
        rw [if_neg (by simpa using hpre), if_neg hpre2, List.cons_append]
        congr 1
        apply ih
        · omega
        · intro t ht
          exact hbc t (ht.trans (List.suffix_cons c cs))

/-- Decidable form of the no-straddling condition, checked over `tails`. -/
lemma boundary_of_tails_all (pat xs : List Char)
    (h : (xs.tails.all fun t =>
      t.isEmpty || decide (pat.length ≤ t.length) || !(t.isPrefixOf pat)) = true) :
    ∀ t, t <:+ xs → t ≠ [] → t.length < pat.length → ¬ t <+: pat := by
  intro t hsuf hne hlen hpre
  have ht := List.all_eq_true.mp h t (by rw [List.mem_tails]; exact hsuf)
  simp only [Bool.or_eq_true, List.isEmpty_eq_true, decide_eq_true_eq,
    Bool.not_eq_eq_eq_not, Bool.not_true] at ht
  rcases ht with (h0 | h0) | h0
  · exact hne h0
  · omega
  · rw [← List.isPrefixOf_iff_prefix] at hpre
    rw [hpre] at h0
    cases h0

set_option maxRecDepth 4096 in
/-- No occurrence of the projection slot straddles the end of the
prefix-plus-select header. -/
lemma header_boundary_clear :
    (((sparql_prefixes ++ sparql_select).data.tails.all fun t =>
      t.isEmpty || decide (("%queryvariables%" : String).data.length ≤ t.length) ||
        !(t.isPrefixOf ("%queryvariables%" : String).data)) = true) := by
  rfl

lemma edgeVars_nil (e : Edge) (i : Nat) (hk : e.kbID.isSome)
    (hr : e.rightkbID.isSome) (hh : e.hopUp ≠ some "") : edgeVars e i = [] := by
  have hb : (e.hopUp == some "") = false := beq_eq_false_iff_ne.mpr hh
  rcases e with ⟨t, k, hp, amax, amin, rk, r⟩
  cases k
  · simp at hk
  · cases rk
    · simp at hr
    · simp only at hb
      simp [edgeVars, hb]

lemma varsAux_nil : ∀ (es : List Edge) (i : Nat),
    (∀ e ∈ es, e.kbID.isSome ∧ e.rightkbID.isSome ∧ e.hopUp ≠ some "") →
    varsAux es i = [] := by
  intro es
  induction es with
  | nil => intro i _; rfl
  | cons e es ih =>
    intro i h
    have he := h e (by simp)
    simp [varsAux, edgeVars_nil e i he.1 he.2.1 he.2.2,
      ih (i + 1) (fun x hx => h x (by simp [hx]))]

lemma compileEdge_isOk (e : Edge) (i : Nat) (h : e.rightkbID.isSome) :
    ∃ out, compileEdge e i = Except.ok out := by
  rcases e with ⟨t, k, hp, amax, amin, rk, r⟩
  cases rk
  · simp at h
  · exact ⟨_, rfl⟩

lemma compileEdges_total : ∀ (es : List Edge) (i : Nat),
    (∀ e ∈ es, e.rightkbID.isSome) →
    ∃ out, compileEdges es i = Except.ok out := by
  intro es
  induction es with
  | nil => intro i _; exact ⟨_, rfl⟩
  | cons e es ih =>
    intro i h
    obtain ⟨⟨f₁, v₁, b₁⟩, h₁⟩ := compileEdge_isOk e i (h e (by simp))
    obtain ⟨⟨f₂, v₂, b₂⟩, h₂⟩ := ih (i + 1) (fun x hx => h x (by simp [hx]))
    refine ⟨(f₁ ++ f₂, v₁ ++ v₂, b₁ ++ b₂), ?_⟩
    simp only [compileEdges, h₁, h₂, okBind]

/-- The prefix header and `SELECT` clause with the `%queryvariables%` slot
replaced by the empty string: a `SELECT DISTINCT` projecting no variables. -/
def emptyProjectionHeader : String :=
  replaceS (sparql_prefixes ++ sparql_select) "%queryvariables%" ""

set_option maxRecDepth 8192 in
/-- C10: on a graph whose every edge binds both its relation (`kbID`) and
its right-hand entity (`rightkbID`) and carries no empty `hopUp`, the
compiler succeeds with `return_var_values = False`, its projection list is
empty, and the query text starts with the header whose `%queryvariables%`
slot was replaced by the empty string — a `SELECT DISTINCT  WHERE` clause
projecting no variables. -/
theorem graph_to_query_empty_projection (g : Graph)
    (hk : ∀ e ∈ g.edgeSet, e.kbID.isSome)
    (hr : ∀ e ∈ g.edgeSet, e.rightkbID.isSome)
    (hh : ∀ e ∈ g.edgeSet, e.hopUp ≠ some "") :
    ∃ q rest, graphToQueryData g false = Except.ok (q, []) ∧
      q = emptyProjectionHeader ++ rest ∧
      emptyProjectionHeader =
        "\n        PREFIX e:<http://www.wikidata.org/entity/>\n        PREFIX rdfs:<http://www.w3.org/2000/01/rdf-schema#>\n        PREFIX skos:<http://www.w3.org/2004/02/skos/core#>\n        PREFIX base:<http://www.wikidata.org/ontology#>\n        \n        SELECT DISTINCT  WHERE\n        " := by
  obtain ⟨⟨body, vars, ob⟩, hce⟩ := compileEdges_total g.edgeSet 0 hr
  have hvars : vars = [] := by
    rw [(compileEdges_parts g.edgeSet 0 body vars ob hce).1]
    exact varsAux_nil g.edgeSet 0 (fun e he => ⟨hk e he, hr e he, hh e he⟩)
  subst hvars
  have hsplit : replaceS (sparql_prefixes ++ sparql_select ++ "\x7b" ++ body ++ "\x7d")
      "%queryvariables%" (joinSep " " []) =
      emptyProjectionHeader ++
        replaceS ("\x7b" ++ body ++ "\x7d") "%queryvariables%" "" := by
    have hd : (sparql_prefixes ++ sparql_select ++ "\x7b" ++ body ++ "\x7d").data =
        (sparql_prefixes ++ sparql_select).data ++ ("\x7b" ++ body ++ "\x7d").data := by
      simp [String.data_append]
    rw [show (joinSep " " ([] : List String)) = "" from rfl]
    show String.mk (replaceL ("%queryvariables%" : String).data ("" : String).data
      (sparql_prefixes ++ sparql_select ++ "\x7b" ++ body ++ "\x7d").data) = _
    rw [hd, replaceL_append _ _ (sparql_prefixes ++ sparql_select).data.length _ _
      (Nat.le_refl _)
      (boundary_of_tails_all _ _ header_boundary_clear)]
    rfl
  refine ⟨(if ob.isEmpty then
      replaceS (sparql_prefixes ++ sparql_select ++ "\x7b" ++ body ++ "\x7d")
        "%queryvariables%" (joinSep " " []) ++ sparql_close
    else
      replaceS (sparql_prefixes ++ sparql_select ++ "\x7b" ++ body ++ "\x7d")
        "%queryvariables%" (joinSep " " []) ++ sparql_close_order (joinSep " " ob)),
    replaceS ("\x7b" ++ body ++ "\x7d") "%queryvariables%" "" ++
      (if ob.isEmpty then sparql_close else sparql_close_order (joinSep " " ob)),
    ?_, ?_, by rfl⟩
  · unfold graphToQueryData
    rw [hce, okBind]
    exact rfl
  · cases hob : ob.isEmpty
    · simp only [hob, Bool.false_eq_true, if_false]
      rw [hsplit, String.append_assoc]
    · simp only [hob, if_true]
      rw [hsplit, String.append_assoc]

/-- Witness for C10 at a one-edge fully bound graph. -/
theorem graph_to_query_empty_projection_witness :
    ∃ q rest, graphToQueryData ⟨[reverseEdge]⟩ false = Except.ok (q, []) ∧
      q = emptyProjectionHeader ++ rest ∧
      emptyProjectionHeader =
        "\n        PREFIX e:<http://www.wikidata.org/entity/>\n        PREFIX rdfs:<http://www.w3.org/2000/01/rdf-schema#>\n        PREFIX skos:<http://www.w3.org/2004/02/skos/core#>\n        PREFIX base:<http://www.wikidata.org/ontology#>\n        \n        SELECT DISTINCT  WHERE\n        " :=
  graph_to_query_empty_projection ⟨[reverseEdge]⟩ (by decide) (by decide) (by decide)
